import Mathlib

/-!
Verification development for the learning-bot RAG pipeline.

The development shallowly embeds the Python source:

* `app/utils/document_processor.py` — the `chunk_text` splitter, modelled over
  `List Char` with explicit Python slice / `rfind` / `strip` semantics
  (the loop is expressed with explicit fuel because the Python while-loop is
  not structurally terminating; nontermination is then expressible).
* `app/services/vector_db_service.py` — `query_documents`, with the backend
  (ChromaDB collection plus sentence-transformers embedder) abstracted as a
  record of possibly-failing functions; the try/except wrapper is translated
  to matching on `Except` values.
* `app/services/chatbot_service.py` — `_create_context`, `_generate_answer`,
  `answer_question`, with the generation model abstracted as a function from
  the prompt to its decoded output.
* `app/routers/chat.py` — `ask_question`, over an abstract subject registry.

Calls to the embedding model, the index and the generation model are counted
in an `Effects` record so that the "never invoked" claims are statable.
-/

namespace LearningBot

/-! ### Python string primitives -/

/-- Python whitespace characters as used by `str.strip()` (ASCII range). -/
def isPyWs (c : Char) : Bool :=
  c == ' ' || c == '\t' || c == '\n' || c == '\r' || c == '\x0b' || c == '\x0c'

/-- Python `str.strip()` on a list of characters. -/
def pyStripL (l : List Char) : List Char :=
  ((l.dropWhile isPyWs).reverse.dropWhile isPyWs).reverse

/-- Python `str.strip()` on a `String`. -/
def pyStrip (s : String) : String :=
  ⟨pyStripL s.data⟩

/-- Python `str.rfind(c)`: index of the last occurrence of `c`, or `-1`. -/
def rfind : List Char → Char → Int
  | [], _ => -1
  | a :: l, c => if rfind l c = -1 then (if a = c then 0 else -1) else rfind l c + 1

/-- Normalize a Python slice index: negative indices count from the end and
everything is clamped into `[0, L]`. -/
def pyNorm (L : Nat) (i : Int) : Nat :=
  if i < 0 then ((L : Int) + i).toNat
  else if i < (L : Int) then i.toNat else L

/-- Python slice `l[a:b]` (step 1), with full negative-index semantics. -/
def pySlice (l : List Char) (a b : Int) : List Char :=
  (l.take (pyNorm l.length b)).drop (pyNorm l.length a)

/-! ### The chunker (`chunk_text` in `document_processor.py`) -/

/-- The `last_break` computation of `chunk_text`:
`max(chunk.rfind('.'), chunk.rfind('\n'))`. -/
def breakPos (chunk : List Char) : Int :=
  max (rfind chunk '.') (rfind chunk '\n')

/-- The end position of the window starting at `start`.  The source computes
`end = start + chunk_size`, and, when the window stops short of the end of the
text, moves `end` to `start + last_break + 1` provided
`last_break > chunk_size * 0.5`.  The float comparison is exact for integer
operands in range, so it is rendered as `chunk_size < 2 * last_break`. -/
def windowEnd (text : List Char) (chunk_size : Nat) (start : Int) : Int :=
  if start + (chunk_size : Int) < (text.length : Int) then
    (if (chunk_size : Int) < 2 * breakPos (pySlice text start (start + (chunk_size : Int)))
     then start + breakPos (pySlice text start (start + (chunk_size : Int))) + 1
     else start + (chunk_size : Int))
  else start + (chunk_size : Int)

/-- Appending a chunk: the source appends `chunk.strip()` when it is truthy. -/
def appendChunk (acc : List (List Char)) (chunk : List Char) : List (List Char) :=
  if pyStripL chunk ≠ [] then acc ++ [pyStripL chunk] else acc

/-- The update `start = end - chunk_overlap if end < text_length else text_length`. -/
def nextStart (text : List Char) (chunk_overlap : Nat) (e : Int) : Int :=
  if e < (text.length : Int) then e - (chunk_overlap : Int) else (text.length : Int)

/-- The while-loop of `chunk_text`, with explicit fuel; `none` means the fuel
ran out before the loop condition `start < text_length` became false. -/
def chunkLoop (text : List Char) (chunk_size chunk_overlap : Nat) :
    Nat → Int → List (List Char) → Option (List (List Char))
  | 0, _, _ => none
  | fuel + 1, start, acc =>
    if start < (text.length : Int) then
      chunkLoop text chunk_size chunk_overlap fuel
        (nextStart text chunk_overlap (windowEnd text chunk_size start))
        (appendChunk acc (pySlice text start (windowEnd text chunk_size start)))
    else some acc

/-- `chunk_text(text, chunk_size, chunk_overlap)`: empty or whitespace-only
input yields `[]`; otherwise the scanning loop runs from position 0. -/
def chunk_text (fuel : Nat) (text : List Char) (chunk_size chunk_overlap : Nat) :
    Option (List (List Char)) :=
  if text = [] ∨ pyStripL text = [] then some []
  else chunkLoop text chunk_size chunk_overlap fuel 0 []

/-! ### Lemmas about the Python string primitives -/

/-- Unfolding lemma for one loop iteration. -/
theorem chunkLoop_succ (text : List Char) (cs co fuel : Nat) (start : Int)
    (acc : List (List Char)) :
    chunkLoop text cs co (fuel + 1) start acc
      = if start < (text.length : Int) then
          chunkLoop text cs co fuel (nextStart text co (windowEnd text cs start))
            (appendChunk acc (pySlice text start (windowEnd text cs start)))
        else some acc := rfl

theorem dropWhile_len_le (p : Char → Bool) (l : List Char) :
    (l.dropWhile p).length ≤ l.length := by
  induction l with
  | nil => simp
  | cons a t ih =>
    rw [List.dropWhile_cons]
    split
    · exact Nat.le_trans ih (by simp)
    · simp

theorem pyStripL_length_le (l : List Char) : (pyStripL l).length ≤ l.length := by
  unfold pyStripL
  calc ((l.dropWhile isPyWs).reverse.dropWhile isPyWs).reverse.length
      = ((l.dropWhile isPyWs).reverse.dropWhile isPyWs).length := List.length_reverse _
    _ ≤ (l.dropWhile isPyWs).reverse.length := dropWhile_len_le _ _
    _ = (l.dropWhile isPyWs).length := List.length_reverse _
    _ ≤ l.length := dropWhile_len_le _ _

theorem rfind_bounds (l : List Char) (c : Char) :
    -1 ≤ rfind l c ∧ rfind l c < (l.length : Int) := by
  induction l with
  | nil => simp [rfind]
  | cons a t ih =>
    obtain ⟨ih1, ih2⟩ := ih
    simp only [rfind, List.length_cons, Nat.cast_add, Nat.cast_one]
    split_ifs <;> omega

theorem pyNorm_le (L : Nat) (i : Int) : pyNorm L i ≤ L := by
  unfold pyNorm; split_ifs <;> omega

theorem pyNorm_zero (L : Nat) : pyNorm L 0 = 0 := by
  unfold pyNorm; split_ifs <;> omega

theorem pyNorm_ge (L : Nat) (b : Int) (hb : (L : Int) ≤ b) : pyNorm L b = L := by
  unfold pyNorm; split_ifs <;> omega

theorem pySlice_length_le (l : List Char) (a b : Int) (hab : a ≤ b) :
    (pySlice l a b).length ≤ (b - a).toNat := by
  unfold pySlice pyNorm
  rw [List.length_drop, List.length_take]
  simp only [Nat.min_def]
  split_ifs <;> omega

theorem pySlice_all (l : List Char) (b : Int) (hb : (l.length : Int) ≤ b) :
    pySlice l 0 b = l := by
  unfold pySlice
  rw [pyNorm_zero, pyNorm_ge _ _ hb, List.take_length, List.drop_zero]

/-! ### Bounds on the chunker step -/

theorem breakPos_bounds (chunk : List Char) :
    -1 ≤ breakPos chunk ∧ breakPos chunk < (chunk.length : Int) := by
  obtain ⟨h1, h2⟩ := rfind_bounds chunk '.'
  obtain ⟨h3, h4⟩ := rfind_bounds chunk '\n'
  unfold breakPos
  exact ⟨le_max_of_le_left h1, max_lt h2 h4⟩

theorem window_len_le (text : List Char) (cs : Nat) (start : Int) :
    ((pySlice text start (start + (cs : Int))).length : Int) ≤ (cs : Int) := by
  have h := pySlice_length_le text start (start + (cs : Int)) (by omega)
  omega

theorem windowEnd_bounds (text : List Char) (cs : Nat) (start : Int) (hcs : 1 ≤ cs) :
    start < windowEnd text cs start ∧ windowEnd text cs start ≤ start + (cs : Int) := by
  have hw := window_len_le text cs start
  obtain ⟨hb1, hb2⟩ := breakPos_bounds (pySlice text start (start + (cs : Int)))
  unfold windowEnd
  split_ifs <;> omega

theorem nextStart_advance (text : List Char) (cs co : Nat) (start : Int)
    (hcs : 1 ≤ cs) (hco : 2 * co ≤ cs) (hlt : start < (text.length : Int)) :
    start + 1 ≤ nextStart text co (windowEnd text cs start) ∧
    nextStart text co (windowEnd text cs start) ≤ (text.length : Int) := by
  have hw := window_len_le text cs start
  obtain ⟨hb1, hb2⟩ := breakPos_bounds (pySlice text start (start + (cs : Int)))
  unfold nextStart windowEnd
  split_ifs <;> omega

theorem appendChunk_bound (text : List Char) (cs : Nat) (start : Int)
    (acc : List (List Char)) (hcs : 1 ≤ cs)
    (hacc : ∀ c ∈ acc, c.length ≤ cs) :
    ∀ c ∈ appendChunk acc (pySlice text start (windowEnd text cs start)),
      c.length ≤ cs := by
  intro c hc
  unfold appendChunk at hc
  split_ifs at hc with h
  · rcases List.mem_append.mp hc with h1 | h1
    · exact hacc c h1
    · have hcl : c = pyStripL (pySlice text start (windowEnd text cs start)) := by
        simpa using h1
      subst hcl
      have h2 := pyStripL_length_le (pySlice text start (windowEnd text cs start))
      have h4 := windowEnd_bounds text cs start hcs
      have h3 := pySlice_length_le text start (windowEnd text cs start) (le_of_lt h4.1)
      omega
  · exact hacc c hc

/-- With a positive window size and an overlap at most half of it, the loop
terminates within `text.length + 1` iterations and every collected chunk has
length at most `chunk_size`. -/
theorem chunkLoop_total (text : List Char) (cs co : Nat) (hcs : 1 ≤ cs)
    (hco : 2 * co ≤ cs) :
    ∀ (fuel : Nat) (start : Int) (acc : List (List Char)),
      0 ≤ start → start ≤ (text.length : Int) →
      (text.length : Int) < start + (fuel : Int) →
      (∀ c ∈ acc, c.length ≤ cs) →
      ∃ out, chunkLoop text cs co fuel start acc = some out ∧
        ∀ c ∈ out, c.length ≤ cs := by
  intro fuel
  induction fuel with
  | zero =>
    intro start acc h0 hle hf _
    exfalso; simp only [Nat.cast_zero, add_zero] at hf; omega
  | succ n ih =>
    intro start acc h0 hle hf hacc
    by_cases hlt : start < (text.length : Int)
    · have hadv := nextStart_advance text cs co start hcs hco hlt
      rw [chunkLoop_succ, if_pos hlt]
      refine ih _ _ (by omega) hadv.2 ?_ (appendChunk_bound text cs start acc hcs hacc)
      push_cast at hf ⊢
      omega
    · rw [chunkLoop_succ, if_neg hlt]
      exact ⟨acc, rfl, hacc⟩

/-! ### Idempotence of Python strip -/

theorem dropWhile_idem (p : Char → Bool) (l : List Char) :
    List.dropWhile p (List.dropWhile p l) = List.dropWhile p l := by
  induction l with
  | nil => rfl
  | cons a t ih =>
    rw [List.dropWhile_cons]
    split_ifs with h
    · exact ih
    · rw [List.dropWhile_cons, if_neg h]

theorem dropWhile_rev_drop (p : Char → Bool) (y : List Char)
    (hy : List.dropWhile p y = y) :
    List.dropWhile p ((y.reverse.dropWhile p).reverse)
      = (y.reverse.dropWhile p).reverse := by
  cases y with
  | nil => rfl
  | cons a t =>
    have ha : p a = false := by
      by_contra hpa
      have hpa' : p a = true := by revert hpa; cases p a <;> simp
      rw [List.dropWhile_cons, if_pos hpa'] at hy
      have h1 := dropWhile_len_le p t
      have h2 := congrArg List.length hy
      simp only [List.length_cons] at h2
      omega
    rw [List.reverse_cons, List.dropWhile_append]
    split_ifs with h
    · simp [List.dropWhile_cons, ha]
    · simp [List.reverse_append, List.dropWhile_cons, ha]

theorem pyStripL_idem (l : List Char) : pyStripL (pyStripL l) = pyStripL l := by
  unfold pyStripL
  rw [dropWhile_rev_drop isPyWs (l.dropWhile isPyWs) (dropWhile_idem isPyWs l),
    List.reverse_reverse, dropWhile_idem]

/-! ### Semantics of rfind and the break-point search -/

/-- `i` is the index of the last occurrence of `c` in `w`, with `-1` meaning
no occurrence. -/
def LastOccAt (w : List Char) (c : Char) (i : Int) : Prop :=
  (i = -1 ∧ ∀ (j : Nat) (hj : j < w.length), w.get ⟨j, hj⟩ ≠ c) ∨
  (∃ (j : Nat) (hj : j < w.length), (j : Int) = i ∧ w.get ⟨j, hj⟩ = c ∧
    ∀ (k : Nat) (hk : k < w.length), j < k → w.get ⟨k, hk⟩ ≠ c)

theorem rfind_lastOcc (l : List Char) (c : Char) : LastOccAt l c (rfind l c) := by
  induction l with
  | nil =>
    left
    exact ⟨rfl, fun j hj => absurd hj (by simp)⟩
  | cons a t ih =>
    rcases ih with ⟨h1, h2⟩ | ⟨j, hj, hj1, hj2, hj3⟩
    · by_cases hac : a = c
      · right
        refine ⟨0, by simp, by simp [rfind, h1, hac], hac, ?_⟩
        intro k hk hk0
        cases k with
        | zero => omega
        | succ q =>
          exact h2 q (by simp only [List.length_cons] at hk; omega)
      · left
        constructor
        · simp [rfind, h1, hac]
        · intro j hj
          cases j with
          | zero => exact hac
          | succ q => exact h2 q (by simp only [List.length_cons] at hj; omega)
    · right
      have hne : rfind t c ≠ -1 := by omega
      refine ⟨j + 1, by simp only [List.length_cons]; omega, ?_, hj2, ?_⟩
      · simp only [rfind, if_neg hne]
        push_cast
        omega
      · intro k hk hk1
        cases k with
        | zero => omega
        | succ q =>
          exact hj3 q (by simp only [List.length_cons] at hk; omega) (by omega)

/-- Sentence-break characters looked for by `chunk_text`. -/
def breakCharB (c : Char) : Bool := c == '.' || c == '\n'

theorem breakCharB_false {c : Char} :
    breakCharB c = false ↔ (c ≠ '.' ∧ c ≠ '\n') := by
  simp [breakCharB]

/-- `i` is the index of the last sentence terminator or newline in `w`, with
`-1` meaning there is none. -/
def LastBreakAt (w : List Char) (i : Int) : Prop :=
  (i = -1 ∧ ∀ (j : Nat) (hj : j < w.length), breakCharB (w.get ⟨j, hj⟩) = false) ∨
  (∃ (j : Nat) (hj : j < w.length), (j : Int) = i ∧ breakCharB (w.get ⟨j, hj⟩) = true ∧
    ∀ (k : Nat) (hk : k < w.length), j < k → breakCharB (w.get ⟨k, hk⟩) = false)

theorem breakPos_lastBreak (w : List Char) : LastBreakAt w (breakPos w) := by
  have hp := rfind_lastOcc w '.'
  have hn := rfind_lastOcc w '\n'
  unfold breakPos
  rcases hp with ⟨hp1, hp2⟩ | ⟨j, hj, hj1, hj2, hj3⟩
  · rcases hn with ⟨hn1, hn2⟩ | ⟨m, hm, hm1, hm2, hm3⟩
    · left
      refine ⟨by rw [hp1, hn1]; simp, ?_⟩
      intro k hk
      rw [breakCharB_false]
      exact ⟨hp2 k hk, hn2 k hk⟩
    · right
      refine ⟨m, hm, ?_, by simp only [breakCharB, Bool.or_eq_true, beq_iff_eq]; exact Or.inr hm2, ?_⟩
      · rw [hp1, ← hm1, max_eq_right (by omega : (-1 : Int) ≤ (m : Int))]
      · intro k hk hmk
        rw [breakCharB_false]
        exact ⟨hp2 k hk, hm3 k hk hmk⟩
  · rcases hn with ⟨hn1, hn2⟩ | ⟨m, hm, hm1, hm2, hm3⟩
    · right
      refine ⟨j, hj, ?_, by simp only [breakCharB, Bool.or_eq_true, beq_iff_eq]; exact Or.inl hj2, ?_⟩
      · rw [hn1, ← hj1, max_eq_left (by omega : (-1 : Int) ≤ (j : Int))]
      · intro k hk hjk
        rw [breakCharB_false]
        exact ⟨hj3 k hk hjk, hn2 k hk⟩
    · rcases Nat.le_total m j with hmj | hjm
      · right
        refine ⟨j, hj, ?_, by simp only [breakCharB, Bool.or_eq_true, beq_iff_eq]; exact Or.inl hj2, ?_⟩
        · rw [← hj1, ← hm1, max_eq_left (by omega : ((m : Nat) : Int) ≤ ((j : Nat) : Int))]
        · intro k hk hjk
          rw [breakCharB_false]
          exact ⟨hj3 k hk hjk, hm3 k hk (by omega)⟩
      · right
        refine ⟨m, hm, ?_, by simp only [breakCharB, Bool.or_eq_true, beq_iff_eq]; exact Or.inr hm2, ?_⟩
        · rw [← hj1, ← hm1, max_eq_right (by omega : ((j : Nat) : Int) ≤ ((m : Nat) : Int))]
        · intro k hk hmk
          rw [breakCharB_false]
          exact ⟨hj3 k hk (by omega), hm3 k hk hmk⟩

/-! ### Claim C1: termination of chunk_text -/

/-- Input on which `chunk_text` loops forever with `chunk_overlap = 7` and
`chunk_size = 10`: the window break lands at index 6, so `end` becomes
`start + 7` and `start` is reset to `end - 7 = start`. -/
def cexText : List Char := "aaaaaa.aaaaaaaaaaaa".data

theorem cexText_loop_none :
    ∀ (fuel : Nat) (acc : List (List Char)),
      chunkLoop cexText 10 7 fuel 0 acc = none := by
  intro fuel
  induction fuel with
  | zero => intro acc; rfl
  | succ n ih =>
    intro acc
    have hstep : chunkLoop cexText 10 7 (n + 1) 0 acc
        = chunkLoop cexText 10 7 n 0 (acc ++ ["aaaaaa.".data]) := rfl
    rw [hstep]
    exact ih _

/-- C1 counterexample: it is not true that for every text, chunk size `s` and
overlap `o` with `o < s` the loop of `chunk_text` terminates.  With `s = 10`,
`o = 7` and a period at index 6 of the window, `start` never advances. -/
theorem chunk_text_c1_counterexample :
    ¬ (∀ (text : List Char) (s o : Nat), o < s →
        ∃ fuel out, chunk_text fuel text s o = some out ∧
          ∀ c ∈ out, c.length ≤ s) := by
  intro h
  obtain ⟨fuel, out, hout, -⟩ := h cexText 10 7 (by omega)
  have hne : ¬ (cexText = [] ∨ pyStripL cexText = []) := by decide
  rw [chunk_text, if_neg hne, cexText_loop_none fuel []] at hout
  exact Option.noConfusion hout

/-- C1 (amended): for every text, chunk size `s ≥ 1` and overlap `o` with
`2 * o ≤ s` (overlap at most half the chunk size — which holds for the
production configuration `s = 500`, `o = 50`), `chunk_text` terminates within
`text.length + 1` iterations and every returned chunk has length at most
`s`. -/
theorem chunk_text_c1_amended (text : List Char) (s o : Nat)
    (hs : 1 ≤ s) (ho : 2 * o ≤ s) :
    ∃ out, chunk_text (text.length + 1) text s o = some out ∧
      ∀ c ∈ out, c.length ≤ s := by
  unfold chunk_text
  split_ifs with h
  · exact ⟨[], rfl, by simp⟩
  · refine chunkLoop_total text s o hs ho (text.length + 1) 0 [] (by omega)
      (by omega) (by push_cast; omega) (by simp)

theorem chunk_text_c1_amended_witness :
    1 ≤ 4 ∧ 2 * 2 ≤ 4 ∧
    (∃ out, chunk_text ("ab cd ef".data.length + 1) "ab cd ef".data 4 2 = some out ∧
      ∀ c ∈ out, c.length ≤ 4) :=
  ⟨by omega, by omega, chunk_text_c1_amended "ab cd ef".data 4 2 (by omega) (by omega)⟩

/-! ### Claim C6: the break-point rule of a non-final window -/

/-- C6: for a window that does not reach the end of the text, the computed
window end equals `start + last_break + 1` exactly when the last break
position exceeds `chunk_size * 0.5` (rendered exactly as
`chunk_size < 2 * last_break`), and otherwise stays at the full
`start + chunk_size`; moreover the compared position really is the index of
the last `'.'` or newline inside the raw window. -/
theorem windowEnd_break_rule (text : List Char) (s : Nat) (start : Int)
    (h : start + (s : Int) < (text.length : Int)) :
    windowEnd text s start =
      (if (s : Int) < 2 * breakPos (pySlice text start (start + (s : Int)))
       then start + breakPos (pySlice text start (start + (s : Int))) + 1
       else start + (s : Int))
    ∧ LastBreakAt (pySlice text start (start + (s : Int)))
        (breakPos (pySlice text start (start + (s : Int)))) := by
  constructor
  · unfold windowEnd
    rw [if_pos h]
  · exact breakPos_lastBreak _

theorem windowEnd_break_rule_witness :
    ((0 : Int) + ((4 : Nat) : Int) < ("ab.cdef".data.length : Int)) ∧
    (windowEnd "ab.cdef".data 4 0 =
      (if ((4 : Nat) : Int) < 2 * breakPos (pySlice "ab.cdef".data 0 (0 + ((4 : Nat) : Int)))
       then 0 + breakPos (pySlice "ab.cdef".data 0 (0 + ((4 : Nat) : Int))) + 1
       else 0 + ((4 : Nat) : Int))
    ∧ LastBreakAt (pySlice "ab.cdef".data 0 (0 + ((4 : Nat) : Int)))
        (breakPos (pySlice "ab.cdef".data 0 (0 + ((4 : Nat) : Int))))) :=
  ⟨by decide, windowEnd_break_rule "ab.cdef".data 4 0 (by decide)⟩

/-! ### Claim C7: texts shorter than the chunk size -/

/-- C7 counterexample: a non-empty text shorter than the chunk size need not
produce one chunk — a whitespace-only text such as a single blank yields the
empty list. -/
theorem chunk_text_c7_counterexample :
    ¬ (∀ (text : List Char) (s o fuel : Nat) (out : List (List Char)),
        text ≠ [] → text.length < s → chunk_text fuel text s o = some out →
        out = [pyStripL text]) := by
  intro h
  have h2 := h [' '] 5 0 1 [] (by decide) (by decide) (by decide)
  exact absurd h2 (by decide)

/-- C7 (amended): for every text whose trimmed form is non-empty and whose
length is strictly less than the chunk size `s`, `chunk_text` returns exactly
one chunk, equal to the trimmed input (two units of fuel suffice). -/
theorem chunk_text_c7_amended (text : List Char) (s o fuel : Nat)
    (hstrip : pyStripL text ≠ []) (hlen : text.length < s) (hfuel : 2 ≤ fuel) :
    chunk_text fuel text s o = some [pyStripL text] := by
  have htext : text ≠ [] := by
    intro he; rw [he] at hstrip; exact hstrip rfl
  have hL : 1 ≤ text.length := List.length_pos.mpr htext
  obtain ⟨f, rfl⟩ : ∃ f, fuel = f + 2 := ⟨fuel - 2, by omega⟩
  rw [chunk_text, if_neg (by tauto)]
  have h1 : (0 : Int) < (text.length : Int) := by exact_mod_cast hL
  have hwe : windowEnd text s 0 = (0 : Int) + (s : Int) := by
    unfold windowEnd
    rw [if_neg (by omega)]
  have hsl : pySlice text 0 ((0 : Int) + (s : Int)) = text :=
    pySlice_all text _ (by omega)
  have hns : nextStart text o ((0 : Int) + (s : Int)) = (text.length : Int) := by
    unfold nextStart
    rw [if_neg (by omega)]
  have happ : appendChunk [] text = [pyStripL text] := by
    unfold appendChunk
    rw [if_pos hstrip]
    rfl
  show chunkLoop text s o (f + 1 + 1) 0 [] = some [pyStripL text]
  rw [chunkLoop_succ, if_pos h1, hwe, hns, hsl, happ, chunkLoop_succ,
    if_neg (by omega : ¬ ((text.length : Int) < (text.length : Int)))]

theorem chunk_text_c7_amended_witness :
    pyStripL " hi ".data ≠ [] ∧ " hi ".data.length < 9 ∧ 2 ≤ 5 ∧
    chunk_text 5 " hi ".data 9 3 = some [pyStripL " hi ".data] :=
  ⟨by decide, by decide, by omega,
    chunk_text_c7_amended " hi ".data 9 3 5 (by decide) (by decide) (by omega)⟩

/-! ### Claim C9: every returned chunk is trimmed and non-empty -/

theorem chunkLoop_stripped (text : List Char) (cs co : Nat) :
    ∀ (fuel : Nat) (start : Int) (acc out : List (List Char)),
      (∀ c ∈ acc, pyStripL c = c ∧ c ≠ []) →
      chunkLoop text cs co fuel start acc = some out →
      ∀ c ∈ out, pyStripL c = c ∧ c ≠ [] := by
  intro fuel
  induction fuel with
  | zero =>
    intro start acc out _ h
    exact absurd h (by simp [chunkLoop])
  | succ n ih =>
    intro start acc out hacc h
    rw [chunkLoop_succ] at h
    split_ifs at h with hlt
    · refine ih _ _ _ ?_ h
      intro c hc
      unfold appendChunk at hc
      split_ifs at hc with hne
      · rcases List.mem_append.mp hc with h1 | h1
        · exact hacc c h1
        · have hc2 : c = pyStripL (pySlice text start (windowEnd text cs start)) := by
            simpa using h1
          subst hc2
          exact ⟨pyStripL_idem _, hne⟩
      · exact hacc c hc
    · obtain rfl : acc = out := Option.some.inj h
      exact hacc

/-- C9: every chunk in a list returned by `chunk_text` equals its own trim
and is non-empty, for any text, chunk size and overlap. -/
theorem chunk_text_chunks_stripped (text : List Char) (s o fuel : Nat)
    (out : List (List Char)) (h : chunk_text fuel text s o = some out) :
    ∀ c ∈ out, pyStripL c = c ∧ c ≠ [] := by
  rw [chunk_text] at h
  split_ifs at h with h0
  · obtain rfl : ([] : List (List Char)) = out := Option.some.inj h
    intro c hc
    exact absurd hc (List.not_mem_nil c)
  · exact chunkLoop_stripped text s o fuel 0 [] out (by simp) h

theorem chunk_text_chunks_stripped_witness :
    chunk_text 10 "ab".data 5 1 = some [['a', 'b']] ∧
    (['a', 'b'] ∈ [['a', 'b']]) ∧
    (pyStripL ['a', 'b'] = ['a', 'b'] ∧ ['a', 'b'] ≠ []) :=
  ⟨by decide, by decide,
    chunk_text_chunks_stripped "ab".data 5 1 10 [['a', 'b']] (by decide)
      ['a', 'b'] (by decide)⟩

/-! ### The vector DB service (`vector_db_service.py`) -/

/-- The sentinel fallback answer used throughout `chatbot_service.py`. -/
def SENTINEL : String := "No information found in the subject documents."

/-- Counters for the external calls made during one request: query-embedding
calls of the sentence-transformers model, similarity queries against the
ChromaDB collection, and invocations of the generation model. -/
structure Effects where
  embedCalls : Nat
  indexCalls : Nat
  modelCalls : Nat
deriving DecidableEq

def Effects.add (e1 e2 : Effects) : Effects :=
  ⟨e1.embedCalls + e2.embedCalls, e1.indexCalls + e2.indexCalls,
    e1.modelCalls + e2.modelCalls⟩

/-- A chunk metadata record, as the Python dict of string keys and values. -/
abbrev Metadata := List (String × String)

/-- The raw result of `collection.query`: lists of per-query-embedding lists
(the Python code indexes them with `[0]`).  Distances are opaque pass-through
numeric values, represented as `Int`. -/
structure RawQueryResult where
  documents : List (List String)
  metadatas : List (List (Option Metadata))
  distances : List (List Int)

/-- The dictionary returned by `query_documents`. -/
structure QueryResult where
  documents : List String
  metadatas : List (Option Metadata)
  distances : List Int
deriving DecidableEq

def emptyQueryResult : QueryResult := ⟨[], [], []⟩

/-- The external backends used by the services: the ChromaDB collection
(count and similarity query), the sentence-transformers query embedder, and
the seq2seq generation pipeline (tokenize, generate, decode) viewed as a
function from the prompt to the decoded output.  Each call may raise, which
is modelled by `Except`. -/
structure Backend where
  collectionCount : String → Except String Nat
  embed : String → Except String (List Int)
  rawQuery : String → List Int → Nat → Except String RawQueryResult
  generate : String → Except String String

/-- `VectorDBService.query_documents`: returns the empty result if the
collection is empty, clamps `n_results` to the collection size, and catches
any backend failure, degrading to the empty result. -/
def query_documents (b : Backend) (subject_id query : String) (n_results : Nat) :
    QueryResult × Effects :=
  match b.collectionCount subject_id with
  | .error _ => (emptyQueryResult, ⟨0, 0, 0⟩)
  | .ok cnt =>
    if cnt = 0 then (emptyQueryResult, ⟨0, 0, 0⟩)
    else
      match b.embed query with
      | .error _ => (emptyQueryResult, ⟨1, 0, 0⟩)
      | .ok emb =>
        match b.rawQuery subject_id emb (min n_results cnt) with
        | .error _ => (emptyQueryResult, ⟨1, 1, 0⟩)
        | .ok raw =>
          ({ documents := raw.documents.headD [],
             metadatas := raw.metadatas.headD [],
             distances := raw.distances.headD [] }, ⟨1, 1, 0⟩)

/-! ### The chatbot service (`chatbot_service.py`) -/

/-- `ChatbotService._create_context` (named without the Python underscore):
numbers the first five retrieved chunks and concatenates them. -/
def create_context (documents : List String) : String :=
  if documents = [] then ""
  else "Context:\n" ++
    String.join ((documents.take 5).mapIdx
      (fun i doc => toString (i + 1) ++ ". " ++ doc ++ "\n\n"))

/-- The prompt built by `_generate_answer`. -/
def mkPrompt (question context : String) : String :=
  "Based on the following context, answer the question. If the context doesn\x27t contain relevant information, say \"No information found in the subject documents.\"\n\n"
    ++ context ++ "\n\nQuestion: " ++ question ++ "\nAnswer:"

/-- `ChatbotService._generate_answer` (named without the Python underscore):
empty context short-circuits to the sentinel without a model call; otherwise
the model runs on the prompt and an empty or under-3-character (after
trimming) output is replaced by the sentinel. -/
def generate_answer (b : Backend) (question context : String) :
    Except String String × Effects :=
  if context = "" then (.ok SENTINEL, ⟨0, 0, 0⟩)
  else
    match b.generate (mkPrompt question context) with
    | .error e => (.error e, ⟨0, 0, 1⟩)
    | .ok answer =>
      if answer = "" ∨ (pyStrip answer).length < 3 then (.ok SENTINEL, ⟨0, 0, 1⟩)
      else (.ok answer, ⟨0, 0, 1⟩)

/-- The source-filename extraction loop of `answer_question`: appends
`metadata["filename"]` the first time each filename is seen, skipping falsy
metadata entries and entries without a `"filename"` key. -/
def sourcesLoop : List (Option Metadata) → List String → List String → List String
  | [], sources, _ => sources
  | m :: ms, sources, seen =>
    match m with
    | none => sourcesLoop ms sources seen
    | some d =>
      if d = [] then sourcesLoop ms sources seen
      else
        match d.lookup "filename" with
        | none => sourcesLoop ms sources seen
        | some filename =>
          if filename ∈ seen then sourcesLoop ms sources seen
          else sourcesLoop ms (sources ++ [filename]) (filename :: seen)

def extract_sources (metadatas : List (Option Metadata)) : List String :=
  sourcesLoop metadatas [] []

/-- The `{answer, sources}` dictionary returned by `answer_question`. -/
structure AnswerResult where
  answer : String
  sources : List String
deriving DecidableEq

/-- `ChatbotService.answer_question`: retrieve, short-circuit on zero
retrieved chunks, otherwise build the context, generate, and attach the
deduplicated source filenames. -/
def answer_question (b : Backend) (subject_id question : String) (n_results : Nat) :
    Except String AnswerResult × Effects :=
  if (query_documents b subject_id question n_results).1.documents = [] then
    (.ok ⟨SENTINEL, []⟩, (query_documents b subject_id question n_results).2)
  else
    match generate_answer b question
        (create_context (query_documents b subject_id question n_results).1.documents) with
    | (.error e, eff) =>
      (.error e, ((query_documents b subject_id question n_results).2).add eff)
    | (.ok answer, eff) =>
      (.ok ⟨answer, extract_sources (query_documents b subject_id question n_results).1.metadatas⟩,
        ((query_documents b subject_id question n_results).2).add eff)

/-! ### The chat router (`routers/chat.py`) -/

/-- A document reference stored inside a subject record. -/
structure DocumentRec where
  id : String
  filename : String
  file_type : String
  uploaded_at : String
deriving DecidableEq

/-- A subject record as stored by `subject_service.py`. -/
structure Subject where
  id : String
  name : String
  description : Option String
  created_at : String
  documents : List DocumentRec
deriving DecidableEq

/-- The response schema of the chat endpoint. -/
structure ChatResponse where
  subject_id : String
  question : String
  answer : String
  sources : List String
deriving DecidableEq

/-- `ask_question` in `routers/chat.py`: 404 on an unknown subject, an
immediate sentinel response (before the chatbot service is ever touched)
when the subject has no documents, and otherwise the chatbot answer, with
failures wrapped into a 500.  HTTP errors are `Except` values carrying the
status code and detail. -/
def ask_question (registry : String → Option Subject) (b : Backend)
    (subject_id question : String) : Except (Nat × String) ChatResponse × Effects :=
  match registry subject_id with
  | none => (.error (404, "Subject not found"), ⟨0, 0, 0⟩)
  | some subject =>
    if subject.documents = [] then
      (.ok ⟨subject_id, question, SENTINEL, []⟩, ⟨0, 0, 0⟩)
    else
      match answer_question b subject_id question 5 with
      | (.error e, eff) => (.error (500, "Error processing question: " ++ e), eff)
      | (.ok r, eff) => (.ok ⟨subject_id, question, r.answer, r.sources⟩, eff)

/-! ### Concrete stub collaborators used by the witnesses -/

/-- A concrete backend whose collection is empty and whose model decodes to a
fixed short answer. -/
def stubBackend : Backend where
  collectionCount := fun _ => .ok 0
  embed := fun _ => .ok []
  rawQuery := fun _ _ _ => .ok ⟨[], [], []⟩
  generate := fun _ => .ok "yes."

/-- A concrete subject registry with one documentless subject. -/
def stubRegistry : String → Option Subject :=
  fun _ => some ⟨"s1", "Math", none, "2024-01-01", []⟩

/-! ### Claim C4: query_documents never propagates a failure -/

/-- C4: `query_documents` is a total function (it returns a `QueryResult`
rather than raising): an empty collection yields the result with empty
documents, metadatas and distances lists, and a failure of any backend call
along the path (collection count, query embedding, similarity query) likewise
degrades to the same empty result instead of propagating. -/
theorem query_documents_degrades (b : Backend) (sid q : String) (n : Nat) :
    (b.collectionCount sid = .ok 0 →
      query_documents b sid q n = (emptyQueryResult, ⟨0, 0, 0⟩)) ∧
    (∀ e, b.collectionCount sid = .error e →
      query_documents b sid q n = (emptyQueryResult, ⟨0, 0, 0⟩)) ∧
    (∀ cnt e, b.collectionCount sid = .ok cnt → cnt ≠ 0 → b.embed q = .error e →
      query_documents b sid q n = (emptyQueryResult, ⟨1, 0, 0⟩)) ∧
    (∀ cnt emb e, b.collectionCount sid = .ok cnt → cnt ≠ 0 → b.embed q = .ok emb →
      b.rawQuery sid emb (min n cnt) = .error e →
      query_documents b sid q n = (emptyQueryResult, ⟨1, 1, 0⟩)) := by
  refine ⟨?_, ?_, ?_, ?_⟩
  · intro h
    simp [query_documents, h]
  · intro e h
    simp [query_documents, h]
  · intro cnt e h1 h2 h3
    simp [query_documents, h1, h2, h3]
  · intro cnt emb e h1 h2 h3 h4
    simp [query_documents, h1, h2, h3, h4]

theorem query_documents_degrades_witness :
    stubBackend.collectionCount "s1" = .ok 0 ∧
    query_documents stubBackend "s1" "q" 5 = (emptyQueryResult, ⟨0, 0, 0⟩) :=
  ⟨rfl, (query_documents_degrades stubBackend "s1" "q" 5).1 rfl⟩

/-! ### Claim C3: zero retrieved chunks short-circuits answer_question -/

theorem query_documents_modelCalls (b : Backend) (sid q : String) (n : Nat) :
    (query_documents b sid q n).2.modelCalls = 0 := by
  unfold query_documents
  rcases b.collectionCount sid with e | cnt
  · rfl
  · dsimp only
    split_ifs
    · rfl
    · rcases b.embed q with e2 | emb
      · rfl
      · dsimp only
        rcases b.rawQuery sid emb (min n cnt) with e3 | raw <;> rfl

/-- C3: whenever retrieval returns zero chunks (in particular for a subject
with no indexed documents), `answer_question` returns exactly the sentinel
answer with an empty sources list and the generation model is never invoked
on that call. -/
theorem answer_question_empty_retrieval (b : Backend) (sid q : String) (n : Nat)
    (h : (query_documents b sid q n).1.documents = []) :
    (answer_question b sid q n).1 = .ok ⟨SENTINEL, []⟩ ∧
    (answer_question b sid q n).2.modelCalls = 0 := by
  unfold answer_question
  rw [if_pos h]
  exact ⟨rfl, query_documents_modelCalls b sid q n⟩

theorem answer_question_empty_retrieval_witness :
    (query_documents stubBackend "s1" "q" 5).1.documents = [] ∧
    ((answer_question stubBackend "s1" "q" 5).1 = .ok ⟨SENTINEL, []⟩ ∧
      (answer_question stubBackend "s1" "q" 5).2.modelCalls = 0) :=
  ⟨rfl, answer_question_empty_retrieval stubBackend "s1" "q" 5 rfl⟩

/-! ### Claim C2: documentless subjects never reach the index -/

/-- C2: for a subject that exists but has zero documents, the chat endpoint
returns the sentinel response immediately; the effect counters being zero
states that no embedding call, no index query and no model call happens on
such a request — retrieval is short-circuited by the documents check. -/
theorem ask_question_short_circuit (registry : String → Option Subject)
    (b : Backend) (sid q : String) (subject : Subject)
    (hreg : registry sid = some subject) (hdocs : subject.documents = []) :
    ask_question registry b sid q
      = (.ok ⟨sid, q, SENTINEL, []⟩, ⟨0, 0, 0⟩) := by
  unfold ask_question
  rw [hreg]
  dsimp only
  rw [if_pos hdocs]

theorem ask_question_short_circuit_witness :
    stubRegistry "s1" = some ⟨"s1", "Math", none, "2024-01-01", []⟩ ∧
    (⟨"s1", "Math", none, "2024-01-01", []⟩ : Subject).documents = [] ∧
    ask_question stubRegistry stubBackend "s1" "hello"
      = (.ok ⟨"s1", "hello", SENTINEL, []⟩, ⟨0, 0, 0⟩) :=
  ⟨rfl, rfl,
    ask_question_short_circuit stubRegistry stubBackend "s1" "hello" _ rfl rfl⟩

/-! ### Claim C8: degenerate generation output is normalized -/

/-- C8: for a non-empty context, if the decoded model output is empty or has
fewer than 3 characters after trimming then `_generate_answer` returns the
sentinel, and otherwise it returns the model output unchanged. -/
theorem generate_answer_normalizes (b : Backend) (question context ans : String)
    (hc : context ≠ "") (hm : b.generate (mkPrompt question context) = .ok ans) :
    (generate_answer b question context).1
      = .ok (if ans = "" ∨ (pyStrip ans).length < 3 then SENTINEL else ans) := by
  unfold generate_answer
  rw [if_neg hc, hm]
  dsimp only
  split_ifs <;> rfl

theorem generate_answer_normalizes_witness :
    ("ctx" : String) ≠ "" ∧
    stubBackend.generate (mkPrompt "q" "ctx") = .ok "yes." ∧
    (generate_answer stubBackend "q" "ctx").1
      = .ok (if "yes." = "" ∨ (pyStrip "yes.").length < 3 then SENTINEL else "yes.") :=
  ⟨by decide, rfl,
    generate_answer_normalizes stubBackend "q" "ctx" "yes." (by decide) rfl⟩

/-! ### Claim C10: the answer field is never near-empty -/

theorem generate_answer_ok (b : Backend) (q c a : String) (eff : Effects)
    (h : generate_answer b q c = (.ok a, eff)) :
    a = SENTINEL ∨ 3 ≤ (pyStrip a).length := by
  unfold generate_answer at h
  split_ifs at h with h1
  · left
    simp only [Prod.mk.injEq] at h
    exact (Except.ok.inj h.1).symm
  · rcases hg : b.generate (mkPrompt q c) with e | ans
    · rw [hg] at h
      simp at h
    · rw [hg] at h
      dsimp only at h
      split_ifs at h with h2
      · simp only [Prod.mk.injEq] at h
        exact Or.inl (Except.ok.inj h.1).symm
      · simp only [Prod.mk.injEq] at h
        obtain rfl : ans = a := Except.ok.inj h.1
        push_neg at h2
        exact Or.inr (by omega)

/-- C10: when `answer_question` returns a result dictionary, its answer is
either exactly the sentinel string or a generated string whose trimmed length
is at least 3 characters — never an empty or near-empty answer. -/
theorem answer_question_answer_nonempty (b : Backend) (sid q : String) (n : Nat)
    (r : AnswerResult) (h : (answer_question b sid q n).1 = .ok r) :
    r.answer = SENTINEL ∨ 3 ≤ (pyStrip r.answer).length := by
  unfold answer_question at h
  split_ifs at h with hd
  · obtain rfl : (⟨SENTINEL, []⟩ : AnswerResult) = r := Except.ok.inj h
    exact Or.inl rfl
  · rcases hg : generate_answer b q
        (create_context (query_documents b sid q n).1.documents) with ⟨res, eff⟩
    rw [hg] at h
    rcases res with e | a
    · simp at h
    · dsimp only at h
      obtain rfl :
          (⟨a, extract_sources (query_documents b sid q n).1.metadatas⟩ : AnswerResult) = r :=
        Except.ok.inj h
      exact generate_answer_ok b q _ a eff hg

theorem answer_question_answer_nonempty_witness :
    (answer_question stubBackend "s1" "q" 5).1 = .ok ⟨SENTINEL, []⟩ ∧
    ((⟨SENTINEL, []⟩ : AnswerResult).answer = SENTINEL ∨
      3 ≤ (pyStrip (⟨SENTINEL, []⟩ : AnswerResult).answer).length) :=
  ⟨rfl, answer_question_answer_nonempty stubBackend "s1" "q" 5 ⟨SENTINEL, []⟩ rfl⟩

/-! ### Claim C5: source attribution is a first-seen-order dedup -/

/-- The filenames present in the retrieved metadata, in retrieval order:
falsy entries (absent or empty dicts) and entries without a `"filename"` key
contribute nothing. -/
def filenamesOf (metadatas : List (Option Metadata)) : List String :=
  metadatas.filterMap (fun m =>
    match m with
    | none => none
    | some d => if d = [] then none else d.lookup "filename")

/-- Modelled from the spec words: keep each string the first time it is seen,
preserving first-seen order. -/
def firstSeenDedup : List String → List String
  | [] => []
  | x :: xs => x :: firstSeenDedup (xs.filter (fun y => decide (y ≠ x)))
termination_by l => l.length
decreasing_by
  simp only [List.length_cons]
  exact Nat.lt_succ_of_le (List.length_filter_le _ _)

theorem firstSeenDedup_mem :
    ∀ (n : Nat) (l : List String), l.length ≤ n →
      ∀ x ∈ firstSeenDedup l, x ∈ l := by
  intro n
  induction n with
  | zero =>
    intro l hl x hx
    obtain rfl : l = [] := List.length_eq_zero.mp (by omega)
    simp [firstSeenDedup] at hx
  | succ n ih =>
    intro l hl x hx
    rcases l with _ | ⟨a, t⟩
    · simp [firstSeenDedup] at hx
    · rw [firstSeenDedup] at hx
      rcases List.mem_cons.mp hx with rfl | hx2
      · exact List.mem_cons_self _ _
      · have hlen : (t.filter (fun y => decide (y ≠ a))).length ≤ n := by
          have := List.length_filter_le (fun y => decide (y ≠ a)) t
          simp only [List.length_cons] at hl
          omega
        exact List.mem_cons_of_mem _
          (List.mem_of_mem_filter (ih _ hlen x hx2))

theorem firstSeenDedup_nodup :
    ∀ (n : Nat) (l : List String), l.length ≤ n → (firstSeenDedup l).Nodup := by
  intro n
  induction n with
  | zero =>
    intro l hl
    obtain rfl : l = [] := List.length_eq_zero.mp (by omega)
    simp [firstSeenDedup]
  | succ n ih =>
    intro l hl
    rcases l with _ | ⟨a, t⟩
    · simp [firstSeenDedup]
    · rw [firstSeenDedup, List.nodup_cons]
      have hlen : (t.filter (fun y => decide (y ≠ a))).length ≤ n := by
        have := List.length_filter_le (fun y => decide (y ≠ a)) t
        simp only [List.length_cons] at hl
        omega
      refine ⟨?_, ih _ hlen⟩
      intro ha
      have := List.mem_filter.mp
        (firstSeenDedup_mem _ _ le_rfl a ha)
      simp at this

theorem sourcesLoop_spec (ms : List (Option Metadata)) :
    ∀ (sources seen : List String),
      sourcesLoop ms sources seen
        = sources ++
          firstSeenDedup ((filenamesOf ms).filter (fun y => decide (y ∉ seen))) := by
  induction ms with
  | nil =>
    intro sources seen
    simp [sourcesLoop, filenamesOf, firstSeenDedup]
  | cons m ms ih =>
    intro sources seen
    rcases m with _ | d
    · rw [show sourcesLoop (none :: ms) sources seen = sourcesLoop ms sources seen from rfl,
        ih]
      congr 2
    · by_cases hd : d = []
      · subst hd
        rw [show sourcesLoop (some [] :: ms) sources seen = sourcesLoop ms sources seen
            from by simp [sourcesLoop], ih]
        congr 2
      · rcases hf : d.lookup "filename" with _ | filename
        · rw [show sourcesLoop (some d :: ms) sources seen = sourcesLoop ms sources seen
              from by simp [sourcesLoop, hd, hf], ih]
          congr 2
          simp [filenamesOf, List.filterMap_cons, hd, hf]
        · have hfn : filenamesOf (some d :: ms) = filename :: filenamesOf ms := by
            simp [filenamesOf, List.filterMap_cons, hd, hf]
          by_cases hseen : filename ∈ seen
          · rw [show sourcesLoop (some d :: ms) sources seen = sourcesLoop ms sources seen
                from by simp [sourcesLoop, hd, hf, hseen], ih, hfn]
            congr 2
            rw [List.filter_cons]
            simp [hseen]
          · rw [show sourcesLoop (some d :: ms) sources seen
                  = sourcesLoop ms (sources ++ [filename]) (filename :: seen)
                from by simp [sourcesLoop, hd, hf, hseen], ih, hfn]
            rw [List.filter_cons]
            have hkeep : decide (filename ∉ seen) = true := by
              simpa using hseen
            rw [if_pos hkeep]
            rw [firstSeenDedup]
            rw [List.append_assoc]
            congr 1
            rw [List.singleton_append]
            congr 1
            rw [List.filter_filter]
            apply congrArg
            apply List.filter_congr
            intro y hy
            by_cases h1 : y = filename <;> by_cases h2 : y ∈ seen <;>
              simp [h1, h2]

/-- C5: `answer_question` derives its sources by walking the retrieved
metadata in order, collecting each filename the first time it is seen and
never again, and silently skipping entries that are falsy or lack a
`"filename"` key: the extraction equals the first-seen-order dedup of the
filename sequence, and the resulting list has no duplicates. -/
theorem extract_sources_first_seen (metadatas : List (Option Metadata)) :
    extract_sources metadatas = firstSeenDedup (filenamesOf metadatas) ∧
    (extract_sources metadatas).Nodup := by
  have h1 : extract_sources metadatas = firstSeenDedup (filenamesOf metadatas) := by
    unfold extract_sources
    rw [sourcesLoop_spec]
    have hp : ∀ y ∈ filenamesOf metadatas,
        (fun y => decide (y ∉ ([] : List String))) y = (fun _ => true) y := by
      simp
    rw [List.filter_congr hp, List.filter_true, List.nil_append]
  exact ⟨h1, h1 ▸ firstSeenDedup_nodup _ _ le_rfl⟩

end LearningBot
